import Mathlib

/-!
Shallow embedding of the trivia match engine
(`src/services/match.service.ts`, `src/entities/match.ts`,
`src/entities/question/question.ts`, `src/main.ts`).

Modelling conventions:
* TypeScript string ids (UUIDs) are modelled as `Nat`; the JS falsiness test
  `!id` on a string id (true exactly for the empty string) is modelled as
  `id = 0`, so `0` plays the role of the empty string.
* A JS `Map` (insertion ordered, unique keys) is an association list
  `List (ID × α)`; `Map.get` reads the first entry with the key,
  `Map.delete` removes it, `Map.values().next()` is the head, and insertion
  order is list order.
* A JS `Record<ID, ID | null>` is an association list `List (ID × Option ID)`;
  a missing key and an explicit `null` are both read back as `none`, matching
  the fact that `undefined` and `null` are equally falsy at every use site.
* Methods that can throw are total functions returning
  `Except Err α × Match` (or `× Question`): the second component is the state
  of the mutated object when the call finishes, whether it returned or threw,
  mirroring that JS exceptions do not roll back prior field writes.
* `Player.createdAt`, `Player.roundsWins`, `Question.text`,
  `Question.categoryName`, `Question.type`, `Question.difficulty`,
  `Match.createdAt` and `Match.questionBuffer` are omitted: no embedded
  operation reads or writes them.
-/

namespace Trivia

abbrev ID := Nat

/-- Error taxonomy of `src/entities/Errors/errors.ts`. -/
inductive Err where
  | notFound
  | duplicate
  | invalidOperation
deriving DecidableEq, Repr

deriving instance DecidableEq for Except

/-- Player entity (`src/entities/match.ts`, `Player` class): display name,
points (mutated only through `addPoints`) and remaining skips (starts at 2). -/
structure Player where
  id : ID
  name : String
  points : Int
  skips : Int
deriving DecidableEq, Repr

/-- Question entity (`src/entities/question/question.ts`): point value and the
assignment / answer state used by `assignTo` and `markAnswered`. -/
structure Question where
  id : ID
  points : Int
  assignedTo : Option ID
  answeredBy : Option ID
deriving DecidableEq, Repr

/-- Match status (`src/entities/match.ts`). -/
inductive MStatus where
  | waiting
  | inProgress
  | finished
deriving DecidableEq, Repr

/-- Turn outcome record returned by `MatchService.handlePlayerAnswer`. -/
structure TurnOutcome where
  nextPlayerId : Option ID
  pointsAwarded : Int
  questionPassed : Bool
  skipsRemaining : Int
  turnOver : Bool
deriving DecidableEq, Repr

/-- Match aggregate (`src/entities/match.ts`, the `Match` class used by the
current `MatchService`): players, the question pool keyed by question id, the
per-player assignment record, the pass marker and the progress counters. -/
structure Match where
  id : ID
  players : List Player
  questionPool : List (ID × Question)
  assigned : List (ID × Option ID)
  status : MStatus
  passedQuestion : Option ID
  questionsResolved : Nat
  numberOfRounds : Nat
  currentRound : Nat
  currentPlayer : Option Player
deriving DecidableEq, Repr

/-- JS truthiness of a `string | null | undefined` id: `none` (null/undefined)
and `some 0` (the empty string) are falsy. -/
def truthy : Option ID → Bool
  | none => false
  | some a => a ≠ 0

/-- `Map.get k` on the question pool: first entry with key `k`. -/
def mapGet (l : List (ID × Question)) (k : ID) : Option Question :=
  match l with
  | [] => none
  | e :: rest => if e.1 = k then some e.2 else mapGet rest k

/-- `Map.has k` on the question pool. -/
def poolHasKey (l : List (ID × Question)) (k : ID) : Bool :=
  match l with
  | [] => false
  | e :: rest => if e.1 = k then true else poolHasKey rest k

/-- `Map.delete k`: remove the entry with key `k` (a JS `Map` holds at most
one entry per key; on a well-formed pool this removes it). -/
def mapDelete (l : List (ID × Question)) (k : ID) : List (ID × Question) :=
  match l with
  | [] => []
  | e :: rest => if e.1 = k then rest else e :: mapDelete rest k

/-- Read `assigned[pid]` from the assignment record; a missing key
(`undefined`) and a stored `null` both come back as `none`. -/
def aGet (l : List (ID × Option ID)) (k : ID) : Option ID :=
  match l with
  | [] => none
  | e :: rest => if e.1 = k then e.2 else aGet rest k

/-- Write `assigned[pid] = v`: overwrite the first entry with the key, or
append a new one. -/
def aSet (l : List (ID × Option ID)) (k : ID) (v : Option ID) : List (ID × Option ID) :=
  match l with
  | [] => [(k, v)]
  | e :: rest => if e.1 = k then (k, v) :: rest else e :: aSet rest k v

/-- Mutate the first player in the list with the given id (JS `players.find`
returns the first match and the caller mutates that object in place). -/
def updFirst (ps : List Player) (pid : ID) (f : Player → Player) : List Player :=
  match ps with
  | [] => []
  | p :: rest => if p.id = pid then f p :: rest else p :: updFirst rest pid f

/-- `players.find((p) => p.id === playerId)` on a player list. -/
def findP (ps : List Player) (pid : ID) : Option Player :=
  match ps with
  | [] => none
  | p :: rest => if p.id = pid then some p else findP rest pid

/-- `players.find((p) => p.id !== playerId)`: first OTHER player. -/
def findOther (ps : List Player) (pid : ID) : Option Player :=
  match ps with
  | [] => none
  | p :: rest => if p.id ≠ pid then some p else findOther rest pid

/-- `Match.hasPlayer` (`src/entities/match.ts`): `players.some((p) => p.id === playerId)`. -/
def hasPlayer (m : Match) (pid : ID) : Bool :=
  match findP m.players pid with
  | some _ => true
  | none => false

/-- `players.find((p) => p.id === playerId)`. -/
def findPlayer (m : Match) (pid : ID) : Option Player :=
  findP m.players pid

/-- Observation helper: points of the (first) player with the given id. -/
def pointsOf (m : Match) (pid : ID) : Option Int :=
  (findPlayer m pid).map (fun p => p.points)

/-- Observation helper: skips of the (first) player with the given id. -/
def skipsOf (m : Match) (pid : ID) : Option Int :=
  (findPlayer m pid).map (fun p => p.skips)

/-- `Question.markAnswered(by)` (`src/entities/question/question.ts` lines
41-57): every guard throws `InvalidOperationError` before the single field
write `this.answeredBy = by`, so on error the question is unchanged. -/
def markAnswered (q : Question) (byId : ID) : Except Err Unit × Question :=
  if byId = 0 then (Except.error Err.invalidOperation, q)
  else
    match q.assignedTo with
    | none => (Except.error Err.invalidOperation, q)
    | some a =>
      if a = 0 then (Except.error Err.invalidOperation, q)
      else if truthy q.answeredBy then (Except.error Err.invalidOperation, q)
      else if byId ≠ a then (Except.error Err.invalidOperation, q)
      else (Except.ok (), { q with answeredBy := some byId })

/-- `MatchService.drawQuestion` (current `src/services/match.service.ts`
lines 331-337): reads the first value of the pool iterator and returns it;
the method performs no write, so the match comes back unchanged. -/
def drawQuestion (m : Match) : Option Question × Match :=
  match m.questionPool with
  | [] => (none, m)
  | e :: _ => (some e.2, m)

/-- `MatchService.assignQuestionToPlayer`: draws the pool head, records the
assignment on the match, and `try`-calls `question.assignTo(playerId)` in
place on the pooled object, swallowing its errors (so the pooled question's
`assignedTo` is set only when `assignTo` would not throw). -/
def assignQuestionToPlayer (m : Match) (pid : ID) : Except Err (Option Question) × Match :=
  if !(hasPlayer m pid) then (Except.error Err.notFound, m)
  else
    match m.questionPool with
    | [] => (Except.ok none, m)
    | (k, q) :: rest =>
      let q1 := if pid ≠ 0 ∧ ¬ truthy q.assignedTo then { q with assignedTo := some pid } else q
      (Except.ok (some q1),
       { m with assigned := aSet m.assigned pid (some q.id),
                questionPool := (k, q1) :: rest })

/-- `MatchService.passQuestion` (lines 150-164): clears the sender's
assignment, gives the same question id to the receiver, and sets the pass
marker. -/
def passQuestion (m : Match) (fromId toId : ID) : Except Err Unit × Match :=
  if !(hasPlayer m fromId) || !(hasPlayer m toId) then (Except.error Err.notFound, m)
  else
    match aGet m.assigned fromId with
    | none => (Except.error Err.invalidOperation, m)
    | some qid =>
      if qid = 0 then (Except.error Err.invalidOperation, m)
      else
        (Except.ok (),
         { m with assigned := aSet (aSet m.assigned fromId none) toId (some qid),
                  passedQuestion := some qid })

/-- `MatchService.skipQuestion` (lines 172-182): drops the current assignment
and immediately reassigns from the pool; nothing else is touched. -/
def skipQuestion (m : Match) (pid : ID) : Except Err (Option Question) × Match :=
  if !(hasPlayer m pid) then (Except.error Err.notFound, m)
  else assignQuestionToPlayer { m with assigned := aSet m.assigned pid none } pid

/-- `MatchService.answerQuestion` (lines 122-141): computes the award from the
pool entry, clears the assignment, and reassigns; it never adds points to a
player. -/
def answerQuestion (m : Match) (pid : ID) (correct : Bool) :
    Except Err (Int × Option Question) × Match :=
  if !(hasPlayer m pid) then (Except.error Err.notFound, m)
  else
    match aGet m.assigned pid with
    | none => (Except.error Err.invalidOperation, m)
    | some qid =>
      if qid = 0 then (Except.error Err.invalidOperation, m)
      else
        let q := mapGet m.questionPool qid
        let awarded : Int :=
          if correct then (match q with | some qq => qq.points | none => 0) else 0
        match assignQuestionToPlayer { m with assigned := aSet m.assigned pid none } pid with
        | (Except.ok nxt, m2) => (Except.ok (awarded, nxt), m2)
        | (Except.error e, m2) => (Except.error e, m2)

/-- `MatchService.recordAnswer` (lines 282-325): resolves the given question
(or looks it up through the assignment record), deletes it from the pool,
bumps `questionsResolved`, clears the pass marker when it pointed at this
question, awards positive points to the answering player only, clears the
assignment, and `try`-marks the (already removed) question answered.  The
player object found via `players.find` is the same object that
`setCurrentPlayer` stored when the ids match, so the in-place `addPoints`
write is mirrored into the `currentPlayer` view as well. -/
def recordAnswer (m : Match) (pid : ID) (correct : Bool) (question : Option Question) :
    Except Err Int × Match :=
  match findPlayer m pid with
  | none => (Except.error Err.notFound, m)
  | some _ =>
    let qres : Except Err (Option Question) :=
      match question with
      | some q => Except.ok (some q)
      | none =>
        match aGet m.assigned pid with
        | none => Except.error Err.invalidOperation
        | some qid =>
          if qid = 0 then Except.error Err.invalidOperation
          else Except.ok (mapGet m.questionPool qid)
    match qres with
    | Except.error e => (Except.error e, m)
    | Except.ok qOpt =>
      let m1 :=
        match qOpt with
        | some q => { m with questionPool := mapDelete m.questionPool q.id,
                             questionsResolved := m.questionsResolved + 1 }
        | none => m
      let m2 :=
        match m1.passedQuestion, qOpt with
        | some x, some q => if x = q.id then { m1 with passedQuestion := none } else m1
        | _, _ => m1
      let awarded : Int :=
        match qOpt with
        | some q => if correct then q.points else 0
        | none => 0
      let m3 :=
        if awarded > 0 then
          { m2 with players := updFirst m2.players pid
                      (fun p => { p with points := p.points + awarded }),
                    currentPlayer := m2.currentPlayer.map
                      (fun p => if p.id = pid then { p with points := p.points + awarded } else p) }
        else m2
      (Except.ok awarded, { m3 with assigned := aSet m3.assigned pid none })

/-- `MatchService.handlePlayerAnswer` (lines 214-275): the central turn
transition, dispatching on correctness and on whether the answered question is
the one in passed state. -/
def handlePlayerAnswer (m : Match) (pid : ID) (answerCorrect : Bool) (q : Question) :
    Except Err TurnOutcome × Match :=
  match findPlayer m pid with
  | none => (Except.error Err.notFound, m)
  | some player =>
    let isPassed : Bool := m.passedQuestion = some q.id
    if answerCorrect then
      match recordAnswer m pid true (some q) with
      | (Except.ok pts, m1) =>
        (Except.ok { nextPlayerId := none, pointsAwarded := pts, questionPassed := false,
                     skipsRemaining := player.skips, turnOver := !isPassed }, m1)
      | (Except.error e, m1) => (Except.error e, m1)
    else if isPassed then
      match recordAnswer m pid false (some q) with
      | (Except.ok _, m1) =>
        (Except.ok { nextPlayerId := none, pointsAwarded := 0, questionPassed := false,
                     skipsRemaining := player.skips, turnOver := false }, m1)
      | (Except.error e, m1) => (Except.error e, m1)
    else
      match findOther m.players pid with
      | some np =>
        match passQuestion m pid np.id with
        | (Except.ok _, m1) =>
          (Except.ok { nextPlayerId := some np.id, pointsAwarded := 0, questionPassed := true,
                       skipsRemaining := player.skips, turnOver := false }, m1)
        | (Except.error e, m1) => (Except.error e, m1)
      | none =>
        match recordAnswer m pid false (some q) with
        | (Except.ok _, m1) =>
          (Except.ok { nextPlayerId := none, pointsAwarded := 0, questionPassed := false,
                       skipsRemaining := player.skips, turnOver := true }, m1)
        | (Except.error e, m1) => (Except.error e, m1)

/-- One comparison step of the `determineWinner` loop. -/
def winStep (w p : Player) : Player :=
  if p.points > w.points then p else w

/-- `MatchService.determineWinner` (lines 387-404): starts from the first
player and keeps the strictly greater scorer while walking the whole list. -/
def determineWinner (m : Match) : Option Player :=
  match m.players with
  | [] => none
  | w :: _ => some (m.players.foldl winStep w)

/-- `MatchService.addPlayer` (lines 357-372): duplicate check, push, and when
the match is already in progress an auto-assignment that throws only after
the player has been pushed. -/
def addPlayer (m : Match) (player : Player) : Except Err Unit × Match :=
  if hasPlayer m player.id then (Except.error Err.duplicate, m)
  else
    let m1 := { m with players := m.players ++ [player] }
    if m1.status = MStatus.inProgress then
      match assignQuestionToPlayer m1 player.id with
      | (Except.ok none, m2) => (Except.error Err.invalidOperation, m2)
      | (Except.ok (some _), m2) => (Except.ok (), m2)
      | (Except.error e, m2) => (Except.error e, m2)
    else (Except.ok (), m1)

/-- The skip lifeline of the driver (`src/main.ts`, `skipFlow`):
`currentPlayer.skips--`, then `recordAnswer(player, false, question)`, then
`assignQuestionToPlayer(player)`.  The `currentPlayer` object handed to
`skipFlow` is the same object stored in `match.players` and in
`match.currentPlayer` (set via `setCurrentPlayer` from `match.players`), so
the in-place decrement is mirrored into both views here. -/
def skipFlow (m : Match) (pid : ID) (q : Question) : Except Err Unit × Match :=
  let m1 := { m with
    players := updFirst m.players pid (fun p => { p with skips := p.skips - 1 }),
    currentPlayer := m.currentPlayer.map
      (fun p => if p.id = pid then { p with skips := p.skips - 1 } else p) }
  match recordAnswer m1 pid false (some q) with
  | (Except.error e, m2) => (Except.error e, m2)
  | (Except.ok _, m2) =>
    match assignQuestionToPlayer m2 pid with
    | (Except.error e, m3) => (Except.error e, m3)
    | (Except.ok _, m3) => (Except.ok (), m3)

/-- Reconstruction of a player performed by `Match.restore`
(`src/entities/match.ts` lines 174-202): a fresh `Player` built from the
captured id, name, points and skips fields. -/
def freshPlayer (p : Player) : Player :=
  { id := p.id, name := p.name, points := p.points, skips := p.skips }

/-- `ConcreteMatchMemento` (`src/entities/category.ts` lines 82-102) stores
`this.state = state`, a reference to the live `Match` object rather than a
copy of its fields.  `getState()` therefore yields the match's state as it is
at the moment `restore` reads it, not as it was when `save` ran.  In this
pure embedding a reference into the single live match is the function that
maps the live match at access time to itself. -/
def mementoGetState (live : Match) : Match := live

/-- `Match.restore` (`src/entities/match.ts` lines 174-202): every field is
overwritten from the memento state; players (and the current player) are
rebuilt as fresh objects from the captured fields, the remaining fields are
taken over directly. -/
def restore (state : Match) : Match :=
  { id := state.id,
    players := state.players.map freshPlayer,
    questionPool := state.questionPool,
    assigned := state.assigned,
    status := state.status,
    passedQuestion := state.passedQuestion,
    questionsResolved := state.questionsResolved,
    numberOfRounds := state.numberOfRounds,
    currentRound := state.currentRound,
    currentPlayer := state.currentPlayer.map freshPlayer }

/-! ## Concrete fixtures used by theorems, witnesses and counterexamples -/

def pAlice : Player := { id := 1, name := "A", points := 0, skips := 2 }

def pBob : Player := { id := 2, name := "B", points := 0, skips := 2 }

def pCarol : Player := { id := 3, name := "C", points := 0, skips := 2 }

def q1 : Question := { id := 11, points := 1, assignedTo := some 1, answeredBy := none }

def q2 : Question := { id := 12, points := 1, assignedTo := none, answeredBy := none }

/-- A question object whose id is not a key of the fixture pool. -/
def q99 : Question := { id := 99, points := 1, assignedTo := some 1, answeredBy := none }

/-- A running two-player match: Alice holds question 11, question 12 is still
free in the pool. -/
def mBase : Match :=
  { id := 7, players := [pAlice, pBob], questionPool := [(11, q1), (12, q2)],
    assigned := [(1, some 11), (2, none)], status := MStatus.inProgress,
    passedQuestion := none, questionsResolved := 0, numberOfRounds := 2,
    currentRound := 1, currentPlayer := some pAlice }

/-! ## Basic lemmas about the data-structure helpers -/

theorem aGet_aSet_same (l : List (ID × Option ID)) (k : ID) (v : Option ID) :
    aGet (aSet l k v) k = v := by
  induction l with
  | nil => simp [aSet, aGet]
  | cons e rest ih =>
    by_cases h : e.1 = k
    · simp [aSet, aGet, h]
    · simp [aSet, aGet, h, ih]

theorem aGet_aSet_ne (l : List (ID × Option ID)) (k x : ID) (v : Option ID) (h : x ≠ k) :
    aGet (aSet l k v) x = aGet l x := by
  induction l with
  | nil => simp [aSet, aGet, Ne.symm h]
  | cons e rest ih =>
    by_cases he : e.1 = k
    · simp [aSet, aGet, he, Ne.symm h]
    · simp [aSet, aGet, he, ih]

theorem poolHasKey_iff_mem (l : List (ID × Question)) (k : ID) :
    poolHasKey l k = true ↔ k ∈ l.map Prod.fst := by
  induction l with
  | nil => simp [poolHasKey]
  | cons e rest ih =>
    by_cases he : e.1 = k
    · simp [poolHasKey, he]
    · simp [poolHasKey, he, ih, Ne.symm he]

theorem mapDelete_length (l : List (ID × Question)) (k : ID) (h : poolHasKey l k = true) :
    (mapDelete l k).length + 1 = l.length := by
  induction l with
  | nil => simp [poolHasKey] at h
  | cons e rest ih =>
    by_cases he : e.1 = k
    · simp [mapDelete, he]
    · simp [poolHasKey, he] at h
      simp [mapDelete, he, ih h]

theorem mapDelete_of_not_has (l : List (ID × Question)) (k : ID) (h : poolHasKey l k = false) :
    mapDelete l k = l := by
  induction l with
  | nil => simp [mapDelete]
  | cons e rest ih =>
    by_cases he : e.1 = k
    · simp [poolHasKey, he] at h
    · simp [poolHasKey, he] at h
      simp [mapDelete, he, ih h]

theorem poolHasKey_mapDelete_self (l : List (ID × Question)) (k : ID)
    (hnd : (l.map Prod.fst).Nodup) :
    poolHasKey (mapDelete l k) k = false := by
  induction l with
  | nil => simp [mapDelete, poolHasKey]
  | cons e rest ih =>
    rw [List.map_cons, List.nodup_cons] at hnd
    by_cases he : e.1 = k
    · rw [mapDelete, if_pos he]
      subst he
      rcases h2 : poolHasKey rest e.1 with _ | _
      · rfl
      · exact absurd ((poolHasKey_iff_mem rest e.1).mp h2) hnd.1
    · rw [mapDelete, if_neg he, poolHasKey, if_neg he]
      exact ih hnd.2

theorem mapGet_eq_none_of_not_has (l : List (ID × Question)) (k : ID)
    (h : poolHasKey l k = false) : mapGet l k = none := by
  induction l with
  | nil => simp [mapGet]
  | cons e rest ih =>
    by_cases he : e.1 = k
    · simp [poolHasKey, he] at h
    · simp [poolHasKey, he] at h
      simp [mapGet, he, ih h]

theorem findP_updFirst_self (ps : List Player) (pid : ID) (f : Player → Player)
    (hf : ∀ p, (f p).id = p.id) :
    findP (updFirst ps pid f) pid = (findP ps pid).map f := by
  induction ps with
  | nil => simp [updFirst, findP]
  | cons p rest ih =>
    by_cases h : p.id = pid
    · simp [updFirst, findP, h, hf p]
    · simp [updFirst, findP, h, ih]

theorem findP_updFirst_ne (ps : List Player) (pid x : ID) (f : Player → Player)
    (hf : ∀ p, (f p).id = p.id) (hx : x ≠ pid) :
    findP (updFirst ps pid f) x = findP ps x := by
  induction ps with
  | nil => simp [updFirst, findP]
  | cons p rest ih =>
    by_cases h : p.id = pid
    · simp [updFirst, findP, h, hf p, Ne.symm hx]
    · simp [updFirst, findP, h, ih]

theorem findP_mem (ps : List Player) (pid : ID) (p : Player) (h : findP ps pid = some p) :
    p ∈ ps := by
  induction ps with
  | nil => simp [findP] at h
  | cons a rest ih =>
    by_cases ha : a.id = pid
    · simp [findP, ha] at h
      simp [h.symm]
    · simp [findP, ha] at h
      exact List.mem_cons_of_mem a (ih h)

/-! ## Lemmas about the `determineWinner` fold -/

theorem foldl_winStep_mem (l : List Player) (w : Player) :
    l.foldl winStep w = w ∨ l.foldl winStep w ∈ l := by
  induction l generalizing w with
  | nil => simp
  | cons p rest ih =>
    rw [List.foldl_cons]
    rcases ih (winStep w p) with h | h
    · rw [h, winStep]
      by_cases hc : p.points > w.points
      · rw [if_pos hc]
        right
        exact List.mem_cons_self p rest
      · rw [if_neg hc]
        left
        rfl
    · right
      exact List.mem_cons_of_mem p h

theorem foldl_winStep_ge_init (l : List Player) (w : Player) :
    w.points ≤ (l.foldl winStep w).points := by
  induction l generalizing w with
  | nil => simp
  | cons p rest ih =>
    rw [List.foldl_cons]
    refine le_trans ?_ (ih (winStep w p))
    rw [winStep]
    by_cases hc : p.points > w.points
    · rw [if_pos hc]
      exact le_of_lt hc
    · rw [if_neg hc]

theorem foldl_winStep_ge (l : List Player) (w : Player) :
    ∀ q ∈ l, q.points ≤ (l.foldl winStep w).points := by
  induction l generalizing w with
  | nil => simp
  | cons p rest ih =>
    intro q hq
    rw [List.foldl_cons]
    rcases List.mem_cons.mp hq with h | h
    · subst h
      refine le_trans ?_ (foldl_winStep_ge_init rest (winStep w q))
      rw [winStep]
      by_cases hc : q.points > w.points
      · rw [if_pos hc]
      · rw [if_neg hc]
        exact le_of_not_lt hc
    · exact ih (winStep w p) q h

theorem findP_append_none (ps l2 : List Player) (x : ID) (h : findP ps x = none) :
    findP (ps ++ l2) x = findP l2 x := by
  induction ps with
  | nil => simp
  | cons p rest ih =>
    by_cases hp : p.id = x
    · simp [findP, hp] at h
    · simp [findP, hp] at h ⊢
      exact ih h

theorem poolHasKey_cons_value (k : ID) (q q' : Question) (rest : List (ID × Question)) (x : ID) :
    poolHasKey ((k, q') :: rest) x = poolHasKey ((k, q) :: rest) x := by
  rw [poolHasKey, poolHasKey]

/-- Evaluation of `recordAnswer` when the player exists and the question is
passed explicitly: the pool entry keyed by the question's id is deleted,
`questionsResolved` is bumped, a pass marker pointing at this question is
cleared, positive points go to the answering player (mirrored into the
aliased `currentPlayer` object), and the assignment is cleared. -/
theorem recordAnswer_some_eq (m : Match) (pid : ID) (c : Bool) (q : Question) (pl : Player)
    (hfp : findPlayer m pid = some pl) :
    recordAnswer m pid c (some q) =
      (Except.ok (if c then q.points else 0),
       { m with
         questionPool := mapDelete m.questionPool q.id,
         questionsResolved := m.questionsResolved + 1,
         passedQuestion := if m.passedQuestion = some q.id then none else m.passedQuestion,
         players :=
           if (if c then q.points else 0) > 0 then
             updFirst m.players pid
               (fun p => { p with points := p.points + (if c then q.points else 0) })
           else m.players,
         currentPlayer :=
           if (if c then q.points else 0) > 0 then
             m.currentPlayer.map
               (fun p => if p.id = pid then
                   { p with points := p.points + (if c then q.points else 0) }
                 else p)
           else m.currentPlayer,
         assigned := aSet m.assigned pid none }) := by
  rcases hpq : m.passedQuestion with _ | x
  · by_cases hc : (if c then q.points else 0) > 0 <;>
      simp [recordAnswer, hfp, hpq, hc]
  · by_cases hx : x = q.id <;>
      by_cases hc : (if c then q.points else 0) > 0 <;>
        simp [recordAnswer, hfp, hpq, hx, hc]

/-- Evaluation of `passQuestion` on valid inputs. -/
theorem passQuestion_ok_eq (m : Match) (fromId toId qid : ID)
    (hfrom : hasPlayer m fromId = true) (hto : hasPlayer m toId = true)
    (hq : aGet m.assigned fromId = some qid) (hq0 : qid ≠ 0) :
    passQuestion m fromId toId =
      (Except.ok (),
       { m with assigned := aSet (aSet m.assigned fromId none) toId (some qid),
                passedQuestion := some qid }) := by
  simp [passQuestion, hfrom, hto, hq, hq0]

/-! ## C7 — drawQuestion -/

/-- C7 (amended): `drawQuestion` returns the first question of the pool in
insertion order and leaves the match — in particular the pool — unchanged,
and it returns the empty signal exactly when the pool is empty.  The removal
of a question from the pool happens only later, in `recordAnswer`. -/
theorem C7_drawQuestion_peeks_insertion_head (m : Match) :
    (drawQuestion m).2 = m
    ∧ ((drawQuestion m).1 = none ↔ m.questionPool = [])
    ∧ (∀ k q rest, m.questionPool = (k, q) :: rest → (drawQuestion m).1 = some q) := by
  rcases hp : m.questionPool with _ | ⟨e, rest⟩
  · refine ⟨?_, ?_, ?_⟩
    · simp [drawQuestion, hp]
    · simp [drawQuestion, hp]
    · intro k q r h
      exact absurd h (by simp)
  · refine ⟨?_, ?_, ?_⟩
    · simp [drawQuestion, hp]
    · simp [drawQuestion, hp]
    · intro k q r h
      injection h with h1 h2
      subst h1
      simp [drawQuestion, hp]

/-- C7 witness: on the fixture match the amended theorem yields the first
pool entry. -/
theorem C7_witness : (drawQuestion mBase).1 = some q1 :=
  (C7_drawQuestion_peeks_insertion_head mBase).2.2 11 q1 [(12, q2)] rfl

/-- C7 counterexample: on a two-question pool `drawQuestion` returns the
first question, yet the pool still has size 2 and still contains that
question — refuting "removes ... so the pool's size decreases by one on a
successful draw". -/
theorem C7_counterexample :
    (drawQuestion mBase).1 = some q1
    ∧ mBase.questionPool.length = 2
    ∧ ((drawQuestion mBase).2).questionPool.length = 2
    ∧ poolHasKey ((drawQuestion mBase).2).questionPool q1.id = true := by
  decide

/-! ## C1 — determineWinner -/

/-- C1 (amended): `determineWinner` returns the empty signal exactly when the
match has zero players; any returned player is a member of the match holding
maximal points; and when one player's points strictly exceed every other
player's (player ids being distinct), that player is the one returned.  On a
shared top score it therefore returns one of the tied players, never a
distinct tie signal. -/
theorem C1_determineWinner_returns_first_max (m : Match) :
    (determineWinner m = none ↔ m.players = [])
    ∧ (∀ p, determineWinner m = some p →
        p ∈ m.players ∧ ∀ q ∈ m.players, q.points ≤ p.points)
    ∧ ((m.players.map Player.id).Nodup →
        ∀ p ∈ m.players, (∀ q ∈ m.players, q.id ≠ p.id → q.points < p.points) →
        determineWinner m = some p) := by
  rcases hp : m.players with _ | ⟨w, t⟩
  · refine ⟨by simp [determineWinner, hp], ?_, ?_⟩
    · intro p h
      rw [determineWinner, hp] at h
      exact absurd h (by simp)
    · intro _ p hpm
      exact absurd hpm (by simp)
  · have hwin : determineWinner m = some ((w :: t).foldl winStep w) := by
      rw [determineWinner, hp]
    have hmem : (w :: t).foldl winStep w ∈ w :: t := by
      rcases foldl_winStep_mem (w :: t) w with h | h
      · rw [h]
        exact List.mem_cons_self w t
      · exact h
    have hge : ∀ q ∈ w :: t, q.points ≤ ((w :: t).foldl winStep w).points :=
      foldl_winStep_ge (w :: t) w
    refine ⟨by simp [hwin, hp], ?_, ?_⟩
    · intro p h
      rw [hwin] at h
      simp only [Option.some.injEq] at h
      rw [← h]
      exact ⟨hmem, hge⟩
    · intro hnd p hpm hstrict
      rw [hwin]
      congr 1
      by_contra hne
      have hid : ((w :: t).foldl winStep w).id ≠ p.id := by
        intro hid
        exact hne (List.inj_on_of_nodup_map hnd hmem hpm hid)
      have h1 : ((w :: t).foldl winStep w).points < p.points :=
        hstrict _ hmem hid
      have h2 : p.points ≤ ((w :: t).foldl winStep w).points := hge p hpm
      exact absurd h1 (not_lt_of_le h2)

/-- C1 witness: in a match where Bob has strictly more points than Alice, the
amended theorem returns Bob. -/
theorem C1_witness :
    determineWinner { mBase with players := [pAlice, { pBob with points := 3 }] }
      = some { pBob with points := 3 } := by
  refine (C1_determineWinner_returns_first_max _).2.2 (by decide) _ (by decide) ?_
  intro q hq hne
  fin_cases hq <;> simp_all [pAlice, pBob]

/-- C1 counterexample: two players tied at 5 points; the claim demands a tie
signal ("no winner", distinct from any player and from the zero-player
`undefined`), but `determineWinner` returns the first tied player.  The
return type has no tie value at all: `none` is what the claim reserves for
zero players. -/
theorem C1_counterexample :
    determineWinner { mBase with players :=
        [{ pAlice with points := 5 }, { pBob with points := 5 }] }
      = some { pAlice with points := 5 }
    ∧ ({ pAlice with points := 5 } : Player).points = ({ pBob with points := 5 } : Player).points := by
  decide

/-! ## C8 — Question.markAnswered -/

/-- C8: `markAnswered` fails with InvalidOperation exactly when the question
is unassigned, already answered, or called by a player other than the
assignee; every failure leaves the question unchanged; and after a successful
call, any second call (by anyone) fails with InvalidOperation and leaves the
state exactly as it was after the first call.  The two well-formedness
hypotheses say stored ids are nonzero (nonempty strings) — guaranteed by
`assignTo` and `markAnswered` themselves, which reject empty ids. -/
theorem C8_markAnswered_spec (q : Question) (byId : ID)
    (hwa : ∀ a, q.assignedTo = some a → a ≠ 0)
    (hwb : ∀ b, q.answeredBy = some b → b ≠ 0) :
    ((markAnswered q byId).1 = Except.error Err.invalidOperation ↔
      (q.assignedTo = none ∨ q.answeredBy ≠ none ∨ q.assignedTo ≠ some byId))
    ∧ ((markAnswered q byId).1 = Except.error Err.invalidOperation →
        (markAnswered q byId).2 = q)
    ∧ (∀ q1, markAnswered q byId = (Except.ok (), q1) →
        ∀ byId2, markAnswered q1 byId2 = (Except.error Err.invalidOperation, q1)) := by
  rcases ha : q.assignedTo with _ | a
  · have hred : markAnswered q byId = (Except.error Err.invalidOperation, q) := by
      by_cases hby : byId = 0 <;> simp [markAnswered, ha, hby]
    refine ⟨by simp [hred], by simp [hred], ?_⟩
    intro q1 h
    rw [hred] at h
    simp at h
  · have ha0 : a ≠ 0 := hwa a ha
    rcases hb : q.answeredBy with _ | b
    · by_cases hby : byId = 0
      · subst hby
        have hred : markAnswered q 0 = (Except.error Err.invalidOperation, q) := by
          simp [markAnswered]
        refine ⟨by simp [hred, ha0], by simp [hred], ?_⟩
        intro q1 h
        rw [hred] at h
        simp at h
      · by_cases heq : byId = a
        · subst heq
          have hred : markAnswered q byId =
              (Except.ok (), { q with answeredBy := some byId }) := by
            simp [markAnswered, ha, hby, truthy, hb]
          refine ⟨by simp [hred], by simp [hred], ?_⟩
          intro q1 h
          rw [hred] at h
          simp only [Prod.mk.injEq, Except.ok.injEq, true_and] at h
          subst h
          intro byId2
          by_cases hby2 : byId2 = 0
          · simp [markAnswered, hby2]
          · simp [markAnswered, hby2, ha, hby, truthy]
        · have hred : markAnswered q byId = (Except.error Err.invalidOperation, q) := by
            simp [markAnswered, ha, hby, ha0, truthy, hb, heq]
          refine ⟨by simp [hred, Ne.symm heq], by simp [hred], ?_⟩
          intro q1 h
          rw [hred] at h
          simp at h
    · have hb0 : b ≠ 0 := hwb b hb
      have hred : markAnswered q byId = (Except.error Err.invalidOperation, q) := by
        by_cases hby : byId = 0 <;> simp [markAnswered, ha, hby, ha0, truthy, hb, hb0]
      refine ⟨by simp [hred], by simp [hred], ?_⟩
      intro q1 h
      rw [hred] at h
      simp at h

/-- C8 witness: question 11 is assigned to player 1 and unanswered, so player
2 calling `markAnswered` fails with InvalidOperation. -/
theorem C8_witness : (markAnswered q1 2).1 = Except.error Err.invalidOperation := by
  refine ((C8_markAnswered_spec q1 2 ?_ ?_).1).mpr ?_
  · intro a ha
    have hq : q1.assignedTo = some 1 := rfl
    rw [hq] at ha
    injection ha with hh
    rw [← hh]
    decide
  · intro b hb
    have hq : q1.answeredBy = none := rfl
    rw [hq] at hb
    exact Option.noConfusion hb
  · right; right
    decide

/-! ## C3 — correct answer on a non-passed question -/

/-- C3: in a running match, when a player holding a (non-passed) question of
positive point value answers it correctly, `handlePlayerAnswer` awards
exactly `question.points` to that player, clears their assignment, removes
the question from the pool (which shrinks by one), increments
`questionsResolved` by one, and reports `pointsAwarded = question.points > 0`
with `turnOver = true`.  The Nodup hypothesis is the `Map` invariant of
unique pool keys. -/
theorem C3_correct_answer_resolves (m : Match) (pid : ID) (q : Question) (pl : Player)
    (hfp : findPlayer m pid = some pl)
    (_hass : aGet m.assigned pid = some q.id)
    (hpool : poolHasKey m.questionPool q.id = true)
    (hnd : (m.questionPool.map Prod.fst).Nodup)
    (hnp : m.passedQuestion ≠ some q.id)
    (_hst : m.status = MStatus.inProgress)
    (hpts : 0 < q.points) :
    (handlePlayerAnswer m pid true q).1 =
      Except.ok { nextPlayerId := none, pointsAwarded := q.points, questionPassed := false,
                  skipsRemaining := pl.skips, turnOver := true }
    ∧ 0 < q.points
    ∧ pointsOf (handlePlayerAnswer m pid true q).2 pid = some (pl.points + q.points)
    ∧ aGet ((handlePlayerAnswer m pid true q).2).assigned pid = none
    ∧ poolHasKey ((handlePlayerAnswer m pid true q).2).questionPool q.id = false
    ∧ ((handlePlayerAnswer m pid true q).2).questionPool.length + 1 = m.questionPool.length
    ∧ ((handlePlayerAnswer m pid true q).2).questionsResolved = m.questionsResolved + 1 := by
  have hrec2 : recordAnswer m pid true (some q) =
      (Except.ok q.points,
       { m with
         questionPool := mapDelete m.questionPool q.id,
         questionsResolved := m.questionsResolved + 1,
         players := updFirst m.players pid (fun p => { p with points := p.points + q.points }),
         currentPlayer := m.currentPlayer.map
           (fun p => if p.id = pid then { p with points := p.points + q.points } else p),
         assigned := aSet m.assigned pid none }) := by
    rw [recordAnswer_some_eq m pid true q pl hfp]
    simp [hnp, hpts]
  have hcall : handlePlayerAnswer m pid true q =
      (Except.ok { nextPlayerId := none, pointsAwarded := q.points, questionPassed := false,
                   skipsRemaining := pl.skips, turnOver := true },
       { m with
         questionPool := mapDelete m.questionPool q.id,
         questionsResolved := m.questionsResolved + 1,
         players := updFirst m.players pid (fun p => { p with points := p.points + q.points }),
         currentPlayer := m.currentPlayer.map
           (fun p => if p.id = pid then { p with points := p.points + q.points } else p),
         assigned := aSet m.assigned pid none }) := by
    rw [handlePlayerAnswer, hfp]
    simp only [hrec2]
    simp [hnp]
  refine ⟨by rw [hcall], hpts, ?_, ?_, ?_, ?_, ?_⟩
  · rw [hcall]
    show (findP (updFirst m.players pid
        (fun p => { p with points := p.points + q.points })) pid).map (fun p => p.points)
      = some (pl.points + q.points)
    rw [findP_updFirst_self m.players pid
        (fun p => { p with points := p.points + q.points }) (fun p => rfl),
      show findP m.players pid = some pl from hfp]
    rfl
  · rw [hcall]
    exact aGet_aSet_same m.assigned pid none
  · rw [hcall]
    exact poolHasKey_mapDelete_self m.questionPool q.id hnd
  · rw [hcall]
    exact mapDelete_length m.questionPool q.id hpool
  · rw [hcall]

/-- C3 witness: Alice answers the one-point question 11 correctly in the
fixture match. -/
theorem C3_witness :
    (handlePlayerAnswer mBase 1 true q1).1 =
      Except.ok { nextPlayerId := none, pointsAwarded := 1, questionPassed := false,
                  skipsRemaining := 2, turnOver := true }
    ∧ pointsOf (handlePlayerAnswer mBase 1 true q1).2 1 = some 1 := by
  have h := C3_correct_answer_resolves mBase 1 q1 pAlice (by decide) (by decide) (by decide)
    (by decide) (by decide) (by decide) (by decide)
  exact ⟨h.1, h.2.2.1⟩

/-! ## C2 — incorrect answer passes, second incorrect answer resolves -/

/-- C2: in a two-player running match, when player A holds a question (not in
passed state) and answers it incorrectly, the assignment moves to player B,
`passedQuestion` is set to the question's id, the pool and all player scores
are untouched, and the outcome is `{questionPassed := true, nextPlayerId :=
B, turnOver := false}` with zero points; when B then answers that passed
question incorrectly, neither player's record changes, the pass marker is
cleared and the question leaves the pool. -/
theorem C2_pass_protocol (m : Match) (pA pB : Player) (q : Question)
    (hps : m.players = [pA, pB]) (hne : pA.id ≠ pB.id)
    (hq0 : q.id ≠ 0)
    (hass : aGet m.assigned pA.id = some q.id)
    (hnp : m.passedQuestion ≠ some q.id)
    (hnd : (m.questionPool.map Prod.fst).Nodup)
    (hpool : poolHasKey m.questionPool q.id = true)
    (_hst : m.status = MStatus.inProgress) :
    ∃ m1, handlePlayerAnswer m pA.id false q =
      (Except.ok { nextPlayerId := some pB.id, pointsAwarded := 0, questionPassed := true,
                   skipsRemaining := pA.skips, turnOver := false }, m1)
    ∧ m1.questionPool = m.questionPool
    ∧ m1.players = m.players
    ∧ aGet m1.assigned pA.id = none
    ∧ aGet m1.assigned pB.id = some q.id
    ∧ m1.passedQuestion = some q.id
    ∧ ∃ m2, handlePlayerAnswer m1 pB.id false q =
        (Except.ok { nextPlayerId := none, pointsAwarded := 0, questionPassed := false,
                     skipsRemaining := pB.skips, turnOver := false }, m2)
      ∧ m2.players = m.players
      ∧ m2.passedQuestion = none
      ∧ poolHasKey m2.questionPool q.id = false
      ∧ m2.questionPool.length + 1 = m.questionPool.length
      ∧ m2.questionsResolved = m.questionsResolved + 1 := by
  have hfpA : findPlayer m pA.id = some pA := by
    simp [findPlayer, hps, findP]
  have hfpB : findPlayer m pB.id = some pB := by
    simp [findPlayer, hps, findP, hne]
  have hhpA : hasPlayer m pA.id = true := by
    rw [hasPlayer, show findP m.players pA.id = some pA from hfpA]
  have hhpB : hasPlayer m pB.id = true := by
    rw [hasPlayer, show findP m.players pB.id = some pB from hfpB]
  have hfo : findOther m.players pA.id = some pB := by
    simp [hps, findOther, Ne.symm hne]
  have hpass := passQuestion_ok_eq m pA.id pB.id q.id hhpA hhpB hass hq0
  have hcall1 : handlePlayerAnswer m pA.id false q =
      (Except.ok { nextPlayerId := some pB.id, pointsAwarded := 0, questionPassed := true,
                   skipsRemaining := pA.skips, turnOver := false },
       { m with assigned := aSet (aSet m.assigned pA.id none) pB.id (some q.id),
                passedQuestion := some q.id }) := by
    rw [handlePlayerAnswer, hfpA]
    simp only [hfo, hpass]
    simp [hnp]
  have h4 : aGet (aSet (aSet m.assigned pA.id none) pB.id (some q.id)) pA.id = none := by
    rw [aGet_aSet_ne _ _ _ _ hne, aGet_aSet_same]
  have h5 : aGet (aSet (aSet m.assigned pA.id none) pB.id (some q.id)) pB.id = some q.id :=
    aGet_aSet_same _ _ _
  have hfpB1 : findPlayer
      { m with assigned := aSet (aSet m.assigned pA.id none) pB.id (some q.id),
               passedQuestion := some q.id } pB.id = some pB := hfpB
  have hrec := recordAnswer_some_eq
    { m with assigned := aSet (aSet m.assigned pA.id none) pB.id (some q.id),
             passedQuestion := some q.id } pB.id false q pB hfpB1
  have hcall2 : handlePlayerAnswer
      { m with assigned := aSet (aSet m.assigned pA.id none) pB.id (some q.id),
               passedQuestion := some q.id } pB.id false q =
      (Except.ok { nextPlayerId := none, pointsAwarded := 0, questionPassed := false,
                   skipsRemaining := pB.skips, turnOver := false },
       { m with questionPool := mapDelete m.questionPool q.id,
                questionsResolved := m.questionsResolved + 1,
                passedQuestion := none,
                assigned := aSet (aSet (aSet m.assigned pA.id none) pB.id (some q.id)) pB.id none }) := by
    rw [handlePlayerAnswer, hfpB1]
    simp only [hrec]
    simp
  exact ⟨_, hcall1, rfl, rfl, h4, h5, rfl, _, hcall2, rfl, rfl,
    poolHasKey_mapDelete_self m.questionPool q.id hnd,
    mapDelete_length m.questionPool q.id hpool, rfl⟩

/-- C2 witness: Alice misses question 11; it passes to Bob with the pass
marker set; Bob misses it too and it leaves the pool with the marker
cleared. -/
theorem C2_witness :
    ∃ m1, handlePlayerAnswer mBase 1 false q1 =
      (Except.ok { nextPlayerId := some 2, pointsAwarded := 0, questionPassed := true,
                   skipsRemaining := 2, turnOver := false }, m1)
    ∧ m1.passedQuestion = some 11
    ∧ ∃ m2, handlePlayerAnswer m1 2 false q1 =
        (Except.ok { nextPlayerId := none, pointsAwarded := 0, questionPassed := false,
                     skipsRemaining := 2, turnOver := false }, m2)
      ∧ poolHasKey m2.questionPool 11 = false := by
  obtain ⟨m1, h1, _, _, _, _, hpq, m2, h2, _, _, hpk, _, _⟩ :=
    C2_pass_protocol mBase pAlice pBob q1 (by decide) (by decide) (by decide) (by decide)
      (by decide) (by decide) (by decide) (by decide)
  exact ⟨m1, h1, hpq, m2, h2, hpk⟩

/-! ## C4 — every normal call resolves exactly once or passes exactly once -/

/-- C4 (amended): in a two-player match, every call of `handlePlayerAnswer`
on a question that is present in the pool and that returns normally either
(1) resolves exactly one question — the pool shrinks by exactly one entry and
`questionsResolved` rises by exactly one — or (2) performs exactly one pass
transfer — pool and counter unchanged, and the assignment moves from the
answering player to the other player — never both and never neither. -/
theorem C4_resolve_xor_pass (m : Match) (pA pB : Player) (pid : ID) (c : Bool) (q : Question)
    (r : TurnOutcome) (mr : Match)
    (hps : m.players = [pA, pB]) (hne : pA.id ≠ pB.id)
    (hpool : poolHasKey m.questionPool q.id = true)
    (hcall : handlePlayerAnswer m pid c q = (Except.ok r, mr)) :
    ((mr.questionPool.length + 1 = m.questionPool.length
      ∧ mr.questionsResolved = m.questionsResolved + 1)
     ∧ ¬ (mr.questionPool = m.questionPool
          ∧ mr.questionsResolved = m.questionsResolved
          ∧ aGet mr.assigned pid = none
          ∧ ∃ qid, aGet m.assigned pid = some qid
              ∧ aGet mr.assigned (if pid = pA.id then pB.id else pA.id) = some qid))
    ∨ ((mr.questionPool = m.questionPool
        ∧ mr.questionsResolved = m.questionsResolved
        ∧ aGet mr.assigned pid = none
        ∧ ∃ qid, aGet m.assigned pid = some qid
            ∧ aGet mr.assigned (if pid = pA.id then pB.id else pA.id) = some qid)
       ∧ ¬ (mr.questionPool.length + 1 = m.questionPool.length
            ∧ mr.questionsResolved = m.questionsResolved + 1)) := by
  rcases hfp : findPlayer m pid with _ | pl
  · rw [handlePlayerAnswer, hfp] at hcall
    exact absurd hcall (by simp)
  · rcases c with _ | _
    · -- incorrect answer
      by_cases hip : m.passedQuestion = some q.id
      · -- passed state: resolution branch
        have hrec := recordAnswer_some_eq m pid false q pl hfp
        have hd : decide (m.passedQuestion = some q.id) = true := by simp [hip]
        rw [handlePlayerAnswer, hfp] at hcall
        simp only [Bool.false_eq_true, if_false, hd, eq_self_iff_true, if_true, hrec] at hcall
        rw [Prod.mk.injEq] at hcall
        rw [← hcall.2]
        left
        constructor
        · exact ⟨mapDelete_length m.questionPool q.id hpool, rfl⟩
        · rintro ⟨-, hres, -⟩
          exact absurd (show m.questionsResolved + 1 = m.questionsResolved from hres)
            (by omega)
      · -- fresh state: pass branch
        have hor : pid = pA.id ∨ pid = pB.id := by
          rw [findPlayer, hps] at hfp
          by_cases h1 : pA.id = pid
          · exact Or.inl h1.symm
          · by_cases h2 : pB.id = pid
            · exact Or.inr h2.symm
            · simp [findP, h1, h2] at hfp
        rcases hor with hpid | hpid
        · subst hpid
          have hfo : findOther m.players pA.id = some pB := by
            simp [hps, findOther, Ne.symm hne]
          have hd : decide (m.passedQuestion = some q.id) = false := by simp [hip]
          rcases hag : aGet m.assigned pA.id with _ | qid
          · rw [handlePlayerAnswer, hfp] at hcall
            simp only [Bool.false_eq_true, if_false, hd, hfo] at hcall
            rw [passQuestion, hag] at hcall
            have hhpA : hasPlayer m pA.id = true := by
              rw [hasPlayer, show findP m.players pA.id = findPlayer m pA.id from rfl, hfp]
            have hhpB : hasPlayer m pB.id = true := by
              rw [hasPlayer]
              simp [hps, findP, hne]
            simp [hhpA, hhpB] at hcall
          · by_cases hq0 : qid = 0
            · rw [handlePlayerAnswer, hfp] at hcall
              simp only [Bool.false_eq_true, if_false, hd, hfo] at hcall
              rw [passQuestion, hag] at hcall
              have hhpA : hasPlayer m pA.id = true := by
                rw [hasPlayer, show findP m.players pA.id = findPlayer m pA.id from rfl, hfp]
              have hhpB : hasPlayer m pB.id = true := by
                rw [hasPlayer]
                simp [hps, findP, hne]
              simp [hhpA, hhpB, hq0] at hcall
            · have hhpA : hasPlayer m pA.id = true := by
                rw [hasPlayer, show findP m.players pA.id = findPlayer m pA.id from rfl, hfp]
              have hhpB : hasPlayer m pB.id = true := by
                rw [hasPlayer]
                simp [hps, findP, hne]
              have hpassed := passQuestion_ok_eq m pA.id pB.id qid hhpA hhpB hag hq0
              rw [handlePlayerAnswer, hfp] at hcall
              simp only [Bool.false_eq_true, if_false, hd, hfo, hpassed] at hcall
              rw [Prod.mk.injEq] at hcall
              rw [← hcall.2]
              right
              constructor
              · refine ⟨rfl, rfl, ?_, qid, rfl, ?_⟩
                · show aGet (aSet (aSet m.assigned pA.id none) pB.id (some qid)) pA.id = none
                  rw [aGet_aSet_ne _ _ _ _ hne, aGet_aSet_same]
                · simp only [if_pos rfl]
                  exact aGet_aSet_same _ _ _
              · rintro ⟨hlen, -⟩
                exact absurd (show m.questionPool.length + 1 = m.questionPool.length from hlen)
                  (by omega)
        · subst hpid
          have hfo : findOther m.players pB.id = some pA := by
            simp [hps, findOther, hne]
          have hd : decide (m.passedQuestion = some q.id) = false := by simp [hip]
          rcases hag : aGet m.assigned pB.id with _ | qid
          · rw [handlePlayerAnswer, hfp] at hcall
            simp only [Bool.false_eq_true, if_false, hd, hfo] at hcall
            rw [passQuestion, hag] at hcall
            have hhpB : hasPlayer m pB.id = true := by
              rw [hasPlayer, show findP m.players pB.id = findPlayer m pB.id from rfl, hfp]
            have hhpA : hasPlayer m pA.id = true := by
              rw [hasPlayer]
              simp [hps, findP]
            simp [hhpA, hhpB] at hcall
          · by_cases hq0 : qid = 0
            · rw [handlePlayerAnswer, hfp] at hcall
              simp only [Bool.false_eq_true, if_false, hd, hfo] at hcall
              rw [passQuestion, hag] at hcall
              have hhpB : hasPlayer m pB.id = true := by
                rw [hasPlayer, show findP m.players pB.id = findPlayer m pB.id from rfl, hfp]
              have hhpA : hasPlayer m pA.id = true := by
                rw [hasPlayer]
                simp [hps, findP]
              simp [hhpA, hhpB, hq0] at hcall
            · have hhpB : hasPlayer m pB.id = true := by
                rw [hasPlayer, show findP m.players pB.id = findPlayer m pB.id from rfl, hfp]
              have hhpA : hasPlayer m pA.id = true := by
                rw [hasPlayer]
                simp [hps, findP]
              have hpassed := passQuestion_ok_eq m pB.id pA.id qid hhpB hhpA hag hq0
              rw [handlePlayerAnswer, hfp] at hcall
              simp only [Bool.false_eq_true, if_false, hd, hfo, hpassed] at hcall
              rw [Prod.mk.injEq] at hcall
              rw [← hcall.2]
              right
              constructor
              · refine ⟨rfl, rfl, ?_, qid, rfl, ?_⟩
                · show aGet (aSet (aSet m.assigned pB.id none) pA.id (some qid)) pB.id = none
                  rw [aGet_aSet_ne _ _ _ _ (Ne.symm hne), aGet_aSet_same]
                · rw [if_neg (Ne.symm hne)]
                  exact aGet_aSet_same _ _ _
              · rintro ⟨hlen, -⟩
                exact absurd (show m.questionPool.length + 1 = m.questionPool.length from hlen)
                  (by omega)
    · -- correct answer: resolution branch
      have hrec := recordAnswer_some_eq m pid true q pl hfp
      rw [handlePlayerAnswer, hfp] at hcall
      simp only [eq_self_iff_true, if_true, hrec] at hcall
      rw [Prod.mk.injEq] at hcall
      rw [← hcall.2]
      left
      constructor
      · exact ⟨mapDelete_length m.questionPool q.id hpool, rfl⟩
      · rintro ⟨-, hres, -⟩
        exact absurd (show m.questionsResolved + 1 = m.questionsResolved from hres)
          (by omega)

/-- C4 witness: Alice's correct answer on pooled question 11 takes the
resolution branch of the amended invariant. -/
theorem C4_witness :
    (handlePlayerAnswer mBase 1 true q1).2.questionPool.length + 1
      = mBase.questionPool.length
    ∧ (handlePlayerAnswer mBase 1 true q1).2.questionsResolved
      = mBase.questionsResolved + 1 := by
  have h := C4_resolve_xor_pass mBase pAlice pBob 1 true q1
    { nextPlayerId := none, pointsAwarded := 1, questionPassed := false,
      skipsRemaining := 2, turnOver := true }
    (handlePlayerAnswer mBase 1 true q1).2
    (by decide) (by decide) (by decide) (by decide)
  rcases h with ⟨hA, -⟩ | ⟨hB, -⟩
  · exact hA
  · exact absurd hB.1 (by decide)

/-- C4 counterexample: called with a question object whose id is not a pool
key (q99), `handlePlayerAnswer` returns normally but NEITHER resolves a pool
entry (the pool keeps its 2 entries while `questionsResolved` still rises)
NOR performs a pass transfer (ownership does not move to the other player) —
refuting the unconditional "never neither". -/
theorem C4_counterexample :
    (handlePlayerAnswer mBase 1 true q99).1 =
      Except.ok { nextPlayerId := none, pointsAwarded := 1, questionPassed := false,
                  skipsRemaining := 2, turnOver := true }
    ∧ ¬ (((handlePlayerAnswer mBase 1 true q99).2.questionPool.length + 1
            = mBase.questionPool.length
          ∧ (handlePlayerAnswer mBase 1 true q99).2.questionsResolved
            = mBase.questionsResolved + 1)
        ∨ ((handlePlayerAnswer mBase 1 true q99).2.questionPool = mBase.questionPool
          ∧ aGet (handlePlayerAnswer mBase 1 true q99).2.assigned 1 = none
          ∧ aGet (handlePlayerAnswer mBase 1 true q99).2.assigned 2 = aGet mBase.assigned 1)) := by
  decide

/-! ## C5 — the skip lifeline -/

/-- C5 (amended): the skip-lifeline semantics the claim attributes to
`skipQuestion` is implemented by the driver's `skipFlow` (`src/main.ts`):
it decrements the player's skips by one, resolves the current question as an
incorrect resolution through `recordAnswer` (zero points, `questionsResolved`
incremented by one, the question removed from the pool), and immediately
assigns the next pool question — when one exists — to the same player,
without changing whose turn it is.  `MatchService.skipQuestion` itself only
drops and re-draws the assignment (see the counterexample).  Nodup is the
pool-key `Map` invariant. -/
theorem C5_skipFlow_resolves_and_reassigns (m : Match) (pid : ID) (q : Question) (pl : Player)
    (hfp : findPlayer m pid = some pl)
    (hnd : (m.questionPool.map Prod.fst).Nodup)
    (hpool : poolHasKey m.questionPool q.id = true)
    (_hsk : 0 < pl.skips) :
    ∃ m3, skipFlow m pid q = (Except.ok (), m3)
      ∧ skipsOf m3 pid = some (pl.skips - 1)
      ∧ pointsOf m3 pid = some pl.points
      ∧ m3.questionsResolved = m.questionsResolved + 1
      ∧ poolHasKey m3.questionPool q.id = false
      ∧ m3.questionPool.length + 1 = m.questionPool.length
      ∧ m3.currentPlayer.map Player.id = m.currentPlayer.map Player.id
      ∧ ((mapDelete m.questionPool q.id = [] ∧ aGet m3.assigned pid = none)
         ∨ ∃ k q2 rest, mapDelete m.questionPool q.id = (k, q2) :: rest
            ∧ aGet m3.assigned pid = some q2.id) := by
  have hfind2 : findP (updFirst m.players pid (fun p => { p with skips := p.skips - 1 })) pid
      = some { pl with skips := pl.skips - 1 } := by
    rw [findP_updFirst_self m.players pid (fun p => { p with skips := p.skips - 1 })
        (fun p => rfl), show findP m.players pid = some pl from hfp]
    rfl
  have hrec2 : recordAnswer
      { m with players := updFirst m.players pid (fun p => { p with skips := p.skips - 1 }),
               currentPlayer := m.currentPlayer.map
                 (fun p => if p.id = pid then { p with skips := p.skips - 1 } else p) }
      pid false (some q) =
      (Except.ok 0,
       { m with players := updFirst m.players pid (fun p => { p with skips := p.skips - 1 }),
                currentPlayer := m.currentPlayer.map
                  (fun p => if p.id = pid then { p with skips := p.skips - 1 } else p),
                questionPool := mapDelete m.questionPool q.id,
                questionsResolved := m.questionsResolved + 1,
                passedQuestion := if m.passedQuestion = some q.id then none
                                  else m.passedQuestion,
                assigned := aSet m.assigned pid none }) := by
    rw [recordAnswer_some_eq
        { m with players := updFirst m.players pid (fun p => { p with skips := p.skips - 1 }),
                 currentPlayer := m.currentPlayer.map
                   (fun p => if p.id = pid then { p with skips := p.skips - 1 } else p) }
        pid false q { pl with skips := pl.skips - 1 } hfind2]
    simp
  have hcur : (m.currentPlayer.map
      (fun p => if p.id = pid then { p with skips := p.skips - 1 } else p)).map Player.id
      = m.currentPlayer.map Player.id := by
    rcases m.currentPlayer with _ | p
    · rfl
    · by_cases hp : p.id = pid <;> simp [hp]
  rcases hdel : mapDelete m.questionPool q.id with _ | ⟨⟨k, q2⟩, rest⟩
  · have hstep : skipFlow m pid q =
        (Except.ok (),
         { m with players := updFirst m.players pid (fun p => { p with skips := p.skips - 1 }),
                  currentPlayer := m.currentPlayer.map
                    (fun p => if p.id = pid then { p with skips := p.skips - 1 } else p),
                  questionPool := mapDelete m.questionPool q.id,
                  questionsResolved := m.questionsResolved + 1,
                  passedQuestion := if m.passedQuestion = some q.id then none
                                    else m.passedQuestion,
                  assigned := aSet m.assigned pid none }) := by
      rw [skipFlow]
      simp only [hrec2]
      rw [assignQuestionToPlayer]
      simp only [hasPlayer, hfind2, hdel, Bool.not_true, Bool.false_eq_true, if_false]
    refine ⟨_, hstep, ?_, ?_, rfl, ?_, ?_, hcur, Or.inl ⟨rfl, ?_⟩⟩
    · show (findP (updFirst m.players pid (fun p => { p with skips := p.skips - 1 })) pid).map
        (fun p => p.skips) = some (pl.skips - 1)
      rw [hfind2]
      rfl
    · show (findP (updFirst m.players pid (fun p => { p with skips := p.skips - 1 })) pid).map
        (fun p => p.points) = some pl.points
      rw [hfind2]
      rfl
    · exact poolHasKey_mapDelete_self m.questionPool q.id hnd
    · exact mapDelete_length m.questionPool q.id hpool
    · exact aGet_aSet_same m.assigned pid none
  · have hstep : skipFlow m pid q =
        (Except.ok (),
         { m with players := updFirst m.players pid (fun p => { p with skips := p.skips - 1 }),
                  currentPlayer := m.currentPlayer.map
                    (fun p => if p.id = pid then { p with skips := p.skips - 1 } else p),
                  questionPool := (k, if pid ≠ 0 ∧ ¬ truthy q2.assignedTo = true
                      then { q2 with assignedTo := some pid } else q2) :: rest,
                  questionsResolved := m.questionsResolved + 1,
                  passedQuestion := if m.passedQuestion = some q.id then none
                                    else m.passedQuestion,
                  assigned := aSet (aSet m.assigned pid none) pid (some q2.id) }) := by
      rw [skipFlow]
      simp only [hrec2]
      rw [assignQuestionToPlayer]
      simp only [hasPlayer, hfind2, hdel, Bool.not_true, Bool.false_eq_true, if_false]
    refine ⟨_, hstep, ?_, ?_, rfl, ?_, ?_, hcur, Or.inr ⟨k, q2, rest, rfl, ?_⟩⟩
    · show (findP (updFirst m.players pid (fun p => { p with skips := p.skips - 1 })) pid).map
        (fun p => p.skips) = some (pl.skips - 1)
      rw [hfind2]
      rfl
    · show (findP (updFirst m.players pid (fun p => { p with skips := p.skips - 1 })) pid).map
        (fun p => p.points) = some pl.points
      rw [hfind2]
      rfl
    · show poolHasKey ((k, if pid ≠ 0 ∧ ¬ truthy q2.assignedTo = true
          then { q2 with assignedTo := some pid } else q2) :: rest) q.id = false
      rw [poolHasKey_cons_value k q2 _ rest q.id, ← hdel]
      exact poolHasKey_mapDelete_self m.questionPool q.id hnd
    · have hl := mapDelete_length m.questionPool q.id hpool
      rw [hdel] at hl
      simpa using hl
    · exact aGet_aSet_same _ pid (some q2.id)

/-- C5 witness: Alice (2 skips) skips pooled question 11 through the driver
flow: skips drop to 1, no points, the question counts as resolved. -/
theorem C5_witness :
    ∃ m3, skipFlow mBase 1 q1 = (Except.ok (), m3)
      ∧ skipsOf m3 1 = some 1
      ∧ pointsOf m3 1 = some 0
      ∧ m3.questionsResolved = 1 := by
  obtain ⟨m3, h1, h2, h3, h4, -⟩ := C5_skipFlow_resolves_and_reassigns mBase 1 q1 pAlice
    (by decide) (by decide) (by decide) (by decide)
  exact ⟨m3, h1, h2, h3, h4⟩

/-- C5 counterexample: `MatchService.skipQuestion` (the symbol the claim
names) neither decrements skips (still 2) nor resolves anything
(`questionsResolved` still 0, question 11 still pooled) — and because
`drawQuestion` does not remove, it hands the very same question 11 back to
the same player. -/
theorem C5_counterexample :
    (skipQuestion mBase 1).1 = Except.ok (some q1)
    ∧ (skipQuestion mBase 1).2.questionsResolved = 0
    ∧ skipsOf (skipQuestion mBase 1).2 1 = some 2
    ∧ poolHasKey (skipQuestion mBase 1).2.questionPool 11 = true
    ∧ aGet (skipQuestion mBase 1).2.assigned 1 = some 11 := by
  decide

/-! ## C9 — addPlayer -/

/-- C9 (amended): `MatchService.addPlayer` fails with DuplicateError when a
player with the same id is already present, and then the player list is
unchanged.  It does NOT validate the waiting status: when the match is not
in progress the player is appended and the call succeeds; when the match is
in progress the player is appended and a question is auto-assigned —
succeeding when the pool is non-empty, and failing with InvalidOperation
only when the pool is empty, with the player left in the list even on that
failure. -/
theorem C9_addPlayer_spec (m : Match) (p : Player) :
    (hasPlayer m p.id = true → addPlayer m p = (Except.error Err.duplicate, m))
    ∧ (hasPlayer m p.id = false → m.status ≠ MStatus.inProgress →
        addPlayer m p = (Except.ok (), { m with players := m.players ++ [p] }))
    ∧ (hasPlayer m p.id = false → m.status = MStatus.inProgress → m.questionPool = [] →
        addPlayer m p = (Except.error Err.invalidOperation,
          { m with players := m.players ++ [p] }))
    ∧ (hasPlayer m p.id = false → m.status = MStatus.inProgress →
        ∀ k q rest, m.questionPool = (k, q) :: rest →
        (addPlayer m p).1 = Except.ok ()
        ∧ (addPlayer m p).2.players = m.players ++ [p]
        ∧ aGet (addPlayer m p).2.assigned p.id = some q.id) := by
  refine ⟨?_, ?_, ?_, ?_⟩
  · intro hdup
    rw [addPlayer, if_pos hdup]
  · intro hdup hst
    rw [addPlayer, if_neg (by rw [hdup]; intro h; cases h)]
    rw [if_neg (by intro h; exact hst h)]
  · intro hdup hst hpl
    have hfnone : findP m.players p.id = none := by
      rw [hasPlayer] at hdup
      rcases hfind : findP m.players p.id with _ | x
      · rfl
      · rw [hfind] at hdup
        cases hdup
    have hfapp : findP (m.players ++ [p]) p.id = some p := by
      rw [findP_append_none m.players [p] p.id hfnone, findP]
      simp
    rw [addPlayer, if_neg (by rw [hdup]; intro h; cases h)]
    rw [if_pos (by exact hst)]
    rw [assignQuestionToPlayer]
    rw [show hasPlayer { m with players := m.players ++ [p] } p.id = true from by
      rw [hasPlayer]
      rw [show findP ({ m with players := m.players ++ [p] } : Match).players p.id
          = some p from hfapp]]
    rw [show ({ m with players := m.players ++ [p] } : Match).questionPool
        = m.questionPool from rfl, hpl]
    rfl
  · intro hdup hst k q rest hpl
    have hfnone : findP m.players p.id = none := by
      rw [hasPlayer] at hdup
      rcases hfind : findP m.players p.id with _ | x
      · rfl
      · rw [hfind] at hdup
        cases hdup
    have hfapp : findP (m.players ++ [p]) p.id = some p := by
      rw [findP_append_none m.players [p] p.id hfnone, findP]
      simp
    have hcall : addPlayer m p =
        (Except.ok (),
         { m with players := m.players ++ [p],
                  assigned := aSet m.assigned p.id (some q.id),
                  questionPool := (k, if p.id ≠ 0 ∧ ¬ truthy q.assignedTo = true
                      then { q with assignedTo := some p.id } else q) :: rest }) := by
      rw [addPlayer, if_neg (by rw [hdup]; intro h; cases h)]
      rw [if_pos (by exact hst)]
      rw [assignQuestionToPlayer]
      rw [show hasPlayer { m with players := m.players ++ [p] } p.id = true from by
        rw [hasPlayer]
        rw [show findP ({ m with players := m.players ++ [p] } : Match).players p.id
            = some p from hfapp]]
      rw [show ({ m with players := m.players ++ [p] } : Match).questionPool
          = m.questionPool from rfl, hpl]
      rfl
    rw [hcall]
    exact ⟨rfl, rfl, aGet_aSet_same m.assigned p.id (some q.id)⟩

/-- C9 witness: adding Bob to a waiting one-player match succeeds and appends
him; adding a player with Alice's id fails with DuplicateError leaving the
list unchanged. -/
theorem C9_witness :
    addPlayer { mBase with players := [pAlice], status := MStatus.waiting } pBob
      = (Except.ok (), { mBase with players := [pAlice, pBob], status := MStatus.waiting })
    ∧ addPlayer mBase { pCarol with id := 1 }
      = (Except.error Err.duplicate, mBase) := by
  constructor
  · have h := (C9_addPlayer_spec
      { mBase with players := [pAlice], status := MStatus.waiting } pBob).2.1
      (by decide) (by decide)
    exact h
  · exact (C9_addPlayer_spec mBase { pCarol with id := 1 }).1 (by decide)

/-- C9 counterexample: on the in-progress fixture match, adding a fresh
player does NOT fail with InvalidOperation — it succeeds and appends — and
in an in-progress match with an empty pool the call does fail, but with the
player list already changed, refuting both "fails ... when the match status
is not waiting" and "on failure the match's player list is unchanged". -/
theorem C9_counterexample :
    mBase.status ≠ MStatus.waiting
    ∧ (addPlayer mBase pCarol).1 = Except.ok ()
    ∧ (addPlayer mBase pCarol).2.players = mBase.players ++ [pCarol]
    ∧ (addPlayer { mBase with questionPool := [] } pCarol).1
        = Except.error Err.invalidOperation
    ∧ (addPlayer { mBase with questionPool := [] } pCarol).2.players
        = mBase.players ++ [pCarol] := by
  decide

/-! ## C10 — player points never decrease; frame of handlePlayerAnswer -/

theorem pointsOf_players_eq (mA mB : Match) (h : mA.players = mB.players) (x : ID) :
    pointsOf mA x = pointsOf mB x := by
  rw [pointsOf, pointsOf, findPlayer, findPlayer, h]

theorem skipsOf_players_eq (mA mB : Match) (h : mA.players = mB.players) (x : ID) :
    skipsOf mA x = skipsOf mB x := by
  rw [skipsOf, skipsOf, findPlayer, findPlayer, h]

theorem assignQuestionToPlayer_players (m : Match) (pid : ID) :
    ((assignQuestionToPlayer m pid).2).players = m.players := by
  cases hb : hasPlayer m pid
  · simp [assignQuestionToPlayer, hb]
  · rcases hp : m.questionPool with _ | ⟨⟨k, q⟩, rest⟩ <;>
      simp [assignQuestionToPlayer, hb, hp]

theorem passQuestion_players (m : Match) (a b : ID) :
    ((passQuestion m a b).2).players = m.players := by
  rw [passQuestion]
  split
  · rfl
  · split
    · rfl
    · split
      · rfl
      · rfl

theorem skipQuestion_players (m : Match) (pid : ID) :
    ((skipQuestion m pid).2).players = m.players := by
  rw [skipQuestion]
  split
  · rfl
  · exact assignQuestionToPlayer_players _ pid

theorem answerQuestion_players (m : Match) (pid : ID) (c : Bool) :
    ((answerQuestion m pid c).2).players = m.players := by
  rcases hassign : assignQuestionToPlayer { m with assigned := aSet m.assigned pid none } pid
    with ⟨res, m2⟩
  have hp := assignQuestionToPlayer_players { m with assigned := aSet m.assigned pid none } pid
  rw [hassign] at hp
  rw [answerQuestion]
  cases hb : hasPlayer m pid
  · simp
  · rcases hag : aGet m.assigned pid with _ | qid
    · simp
    · by_cases hq0 : qid = 0
      · simp [hq0]
      · rcases res with e | nxt
        · simp only [hq0, if_false, hassign]
          exact hp
        · simp only [hq0, if_false, hassign]
          exact hp

theorem recordAnswer_players_cases (m : Match) (pid : ID) (c : Bool) (qo : Option Question) :
    ((recordAnswer m pid c qo).2).players = m.players
    ∨ ∃ aw : Int, 0 < aw ∧ ((recordAnswer m pid c qo).2).players
        = updFirst m.players pid (fun p => { p with points := p.points + aw }) := by
  rcases hfp : findPlayer m pid with _ | pl
  · left
    simp [recordAnswer, hfp]
  · have hsome : ∀ qq : Question,
        ((recordAnswer m pid c (some qq)).2).players = m.players
        ∨ ∃ aw : Int, 0 < aw ∧ ((recordAnswer m pid c (some qq)).2).players
            = updFirst m.players pid (fun p => { p with points := p.points + aw }) := by
      intro qq
      rw [recordAnswer_some_eq m pid c qq pl hfp]
      by_cases haw : (if c then qq.points else 0) > 0
      · right
        refine ⟨if c then qq.points else 0, haw, ?_⟩
        simp [haw]
      · left
        simp [haw]
    rcases qo with _ | q
    · rcases hag : aGet m.assigned pid with _ | qid
      · left
        simp [recordAnswer, hfp, hag]
      · by_cases hq0 : qid = 0
        · left
          simp [recordAnswer, hfp, hag, hq0]
        · rcases hmg : mapGet m.questionPool qid with _ | q
          · left
            simp [recordAnswer, hfp, hag, hq0, hmg]
          · have heq : recordAnswer m pid c none = recordAnswer m pid c (some q) := by
              simp only [recordAnswer, hfp, hag, hmg]
              simp [hq0]
            rw [heq]
            exact hsome q
    · exact hsome q

theorem recordAnswer_mono_frame (m : Match) (pid : ID) (c : Bool) (qo : Option Question) :
    (∀ x, x ≠ pid →
        pointsOf (recordAnswer m pid c qo).2 x = pointsOf m x
        ∧ skipsOf (recordAnswer m pid c qo).2 x = skipsOf m x)
    ∧ (∀ x v, pointsOf m x = some v →
        ∃ v2, pointsOf (recordAnswer m pid c qo).2 x = some v2 ∧ v ≤ v2) := by
  rcases recordAnswer_players_cases m pid c qo with hpl | ⟨aw, haw, hpl⟩
  · constructor
    · intro x _
      exact ⟨pointsOf_players_eq _ _ hpl x, skipsOf_players_eq _ _ hpl x⟩
    · intro x v hv
      refine ⟨v, ?_, le_refl v⟩
      rw [pointsOf_players_eq _ _ hpl x]
      exact hv
  · constructor
    · intro x hx
      constructor
      · rw [pointsOf, findPlayer, hpl,
          findP_updFirst_ne m.players pid x (fun p => { p with points := p.points + aw })
            (fun p => rfl) hx]
        rfl
      · rw [skipsOf, findPlayer, hpl,
          findP_updFirst_ne m.players pid x (fun p => { p with points := p.points + aw })
            (fun p => rfl) hx]
        rfl
    · intro x v hv
      by_cases hx : x = pid
      · subst hx
        rcases hfx : findP m.players x with _ | px
        · rw [pointsOf, findPlayer, hfx] at hv
          exact Option.noConfusion hv
        · rw [pointsOf, findPlayer, hfx] at hv
          simp at hv
          refine ⟨v + aw, ?_, by linarith⟩
          rw [pointsOf, findPlayer, hpl,
            findP_updFirst_self m.players x (fun p => { p with points := p.points + aw })
              (fun p => rfl), hfx]
          simp [hv]
      · refine ⟨v, ?_, le_refl v⟩
        rw [pointsOf, findPlayer, hpl,
          findP_updFirst_ne m.players pid x (fun p => { p with points := p.points + aw })
            (fun p => rfl) hx]
        exact hv

theorem handlePlayerAnswer_snd (m : Match) (pid : ID) (c : Bool) (q : Question) :
    (handlePlayerAnswer m pid c q).2 = (recordAnswer m pid c (some q)).2
    ∨ ((handlePlayerAnswer m pid c q).2).players = m.players := by
  rcases hfp : findPlayer m pid with _ | pl
  · right
    rw [handlePlayerAnswer, hfp]
  · rcases c with _ | _
    · by_cases hip : m.passedQuestion = some q.id
      · left
        have hd : decide (m.passedQuestion = some q.id) = true := by simp [hip]
        rw [handlePlayerAnswer, hfp]
        rcases hr : recordAnswer m pid false (some q) with ⟨res, m1⟩
        rcases res <;> simp [hd, hr]
      · have hd : decide (m.passedQuestion = some q.id) = false := by simp [hip]
        rcases hfo : findOther m.players pid with _ | np
        · left
          rw [handlePlayerAnswer, hfp]
          rcases hr : recordAnswer m pid false (some q) with ⟨res, m1⟩
          rcases res <;> simp [hd, hfo, hr]
        · right
          rw [handlePlayerAnswer, hfp]
          rcases hr : passQuestion m pid np.id with ⟨res, m1⟩
          have hp := passQuestion_players m pid np.id
          rw [hr] at hp
          rcases res <;> simp [hd, hfo, hr] <;> exact hp
    · left
      rw [handlePlayerAnswer, hfp]
      rcases hr : recordAnswer m pid true (some q) with ⟨res, m1⟩
      rcases res <;> simp [hr]

/-- C10: across the MatchService operations, player points never decrease
and only `recordAnswer` ever changes them — `assignQuestionToPlayer`,
`answerQuestion`, `passQuestion` and `skipQuestion` leave the player list
untouched entirely; `recordAnswer` only raises the answering player's
points (by a strictly positive award, or not at all); and a call of
`handlePlayerAnswer` leaves every other player's points and skips exactly
unchanged while never decreasing anyone's points. -/
theorem C10_points_never_decrease :
    (∀ m pid, ((assignQuestionToPlayer m pid).2).players = m.players)
    ∧ (∀ m pid c, ((answerQuestion m pid c).2).players = m.players)
    ∧ (∀ m a b, ((passQuestion m a b).2).players = m.players)
    ∧ (∀ m pid, ((skipQuestion m pid).2).players = m.players)
    ∧ (∀ m pid c qo x v, pointsOf m x = some v →
        ∃ v2, pointsOf (recordAnswer m pid c qo).2 x = some v2 ∧ v ≤ v2)
    ∧ (∀ m pid c q x v, pointsOf m x = some v →
        ∃ v2, pointsOf (handlePlayerAnswer m pid c q).2 x = some v2 ∧ v ≤ v2)
    ∧ (∀ m pid c q x, x ≠ pid →
        pointsOf (handlePlayerAnswer m pid c q).2 x = pointsOf m x
        ∧ skipsOf (handlePlayerAnswer m pid c q).2 x = skipsOf m x) := by
  refine ⟨assignQuestionToPlayer_players, answerQuestion_players, passQuestion_players,
    skipQuestion_players, ?_, ?_, ?_⟩
  · intro m pid c qo x v hv
    exact (recordAnswer_mono_frame m pid c qo).2 x v hv
  · intro m pid c q x v hv
    rcases handlePlayerAnswer_snd m pid c q with hsnd | hpl
    · rw [pointsOf, findPlayer, hsnd]
      exact (recordAnswer_mono_frame m pid c (some q)).2 x v hv
    · refine ⟨v, ?_, le_refl v⟩
      rw [pointsOf_players_eq _ _ hpl x]
      exact hv
  · intro m pid c q x hx
    rcases handlePlayerAnswer_snd m pid c q with hsnd | hpl
    · have h := (recordAnswer_mono_frame m pid c (some q)).1 x hx
      rw [pointsOf, skipsOf, findPlayer, hsnd]
      exact h
    · exact ⟨pointsOf_players_eq _ _ hpl x, skipsOf_players_eq _ _ hpl x⟩

/-- C10 witness: in the fixture match, Alice's correct answer never lowers
any score — Bob's points and skips are exactly unchanged and Alice's points
only grow. -/
theorem C10_witness :
    (∃ v2, pointsOf (handlePlayerAnswer mBase 1 true q1).2 1 = some v2 ∧ (0 : Int) ≤ v2)
    ∧ pointsOf (handlePlayerAnswer mBase 1 true q1).2 2 = pointsOf mBase 2
    ∧ skipsOf (handlePlayerAnswer mBase 1 true q1).2 2 = skipsOf mBase 2 := by
  refine ⟨C10_points_never_decrease.2.2.2.2.2.1 mBase 1 true q1 1 0 (by decide), ?_, ?_⟩
  · exact (C10_points_never_decrease.2.2.2.2.2.2 mBase 1 true q1 2 (by decide)).1
  · exact (C10_points_never_decrease.2.2.2.2.2.2 mBase 1 true q1 2 (by decide)).2

/-! ## C6 — snapshot / restore (memento) -/

/-- C6 (code bug exhibit): `ConcreteMatchMemento` stores `this.state = state`
— a reference to the live `Match`, not a copy — so a snapshot taken before an
operation and restored afterwards reads the CURRENT state, not the captured
one.  Concretely: at capture time Alice has 0 points; after her correct
answer on the one-point question 11 she has 1 point; restoring the earlier
snapshot leaves her at 1 point (and, players rebuilt as value-identical
fresh objects aside, is a data-level no-op), instead of the captured 0 the
round-trip property demands. -/
theorem C6_memento_alias_bug :
    pointsOf mBase 1 = some 0
    ∧ pointsOf (restore (mementoGetState (recordAnswer mBase 1 true (some q1)).2)) 1 = some 1
    ∧ restore (mementoGetState (recordAnswer mBase 1 true (some q1)).2)
        = (recordAnswer mBase 1 true (some q1)).2 := by
  decide

end Trivia
